import Mathlib

/-!
# Verification of the PhoDispl image-source subsystem

Shallow embedding of `image_source` (src: image-source implementation file):
the priority-based load scheduler (`schedule_image`, `unschedule_image`,
`next_scheduled_image`), the background worker loop (`work_loop`), the
filesystem-event handler (`file_event`) and the cache population / re-watch
path (`populate_cache`, `reload_file_list`).

Modelling conventions:
* `std::shared_ptr<image>` / `image*` identity is modelled by a numeric id
  (`ImageId`); the C++ code compares images only by pointer identity.
* `prio_shared_image` is `std::pair<size_t, std::shared_ptr<image>>`; we keep
  the member names `first` (priority) and `second` (image).
* `std::vector` is a `List`; `emplace_back` appends at the end, `pop_back`
  drops the last element, `erase(it)` removes one element preserving order.
* `std::ranges::sort(v, std::ranges::greater(), &prio_shared_image::first)`
  guarantees only a permutation of the input that is sorted descending by
  priority; the order of equal-priority elements is unspecified.  The
  executable embedding (`sortScheduled`) uses `List.insertionSort` with the
  relation `prioGe` — *one* conforming result — and no theorem below reads
  a tie-order fact off it: properties that depend on the order of equal
  priorities are settled against the relational contract
  `RangesSortResult`, which quantifies over every result the sort is
  permitted to produce.
-/

namespace PhoDispl

open List

/-- Identity of a `std::shared_ptr<image>` / raw `image*`. -/
abbrev ImageId := Nat

/-- `prio_shared_image = std::pair<size_t, std::shared_ptr<image>>`:
`first` is the load priority, `second` the image. -/
structure prio_shared_image where
  first : Nat
  second : ImageId
deriving DecidableEq

/-- Scheduler state: the two containers guarded by `scheduled_images_lock_`:
`scheduled_images_ : std::vector<prio_shared_image>` (pending-load queue) and
`unscheduled_images_ : std::vector<image*>` (drop-on-sight set). -/
structure SchedState where
  scheduled_images : List prio_shared_image
  unscheduled_images : List ImageId
deriving DecidableEq

/-- The image ids present in a pending-load queue. -/
def schedIds (l : List prio_shared_image) : List ImageId :=
  l.map (·.second)

/-- Comparison used by `std::ranges::sort(scheduled_images_,
std::ranges::greater(), &prio_shared_image::first)`: `a` comes before `b`
iff `a`'s priority is numerically at least `b`'s (descending order). -/
def prioGe (a b : prio_shared_image) : Prop :=
  b.first ≤ a.first

instance : DecidableRel prioGe :=
  fun a b => inferInstanceAs (Decidable (b.first ≤ a.first))

instance : IsTotal prio_shared_image prioGe :=
  ⟨fun a b => (Nat.le_total b.first a.first).imp id id⟩

instance : IsTrans prio_shared_image prioGe :=
  ⟨fun _ _ _ hab hbc => Nat.le_trans hbc hab⟩

/-- `std::ranges::sort(scheduled_images_, greater, &first)` in the
executable embedding: one conforming result (a descending sort by
priority).  Theorems that would depend on how this particular sort orders
equal priorities use `RangesSortResult` instead. -/
def sortScheduled (l : List prio_shared_image) : List prio_shared_image :=
  l.insertionSort prioGe

/-- Everything `std::ranges::sort(v, std::ranges::greater(), &first)`
guarantees about its result: a permutation of the input, sorted descending
by priority.  The relative order of equal-priority elements is left
unspecified by the C++ standard, so any list satisfying this contract is a
possible post-sort `scheduled_images_`. -/
def RangesSortResult (l l' : List prio_shared_image) : Prop :=
  l' ~ l ∧ l'.Pairwise prioGe

instance (l l' : List prio_shared_image) : Decidable (RangesSortResult l l') :=
  inferInstanceAs (Decidable ((l' ~ l) ∧ l'.Pairwise prioGe))

/-- In-place priority update `it->first = priority` at the first queue entry
whose `second` is `img` (the entry `std::ranges::find` returns). -/
def updateFirstOcc : List prio_shared_image → ImageId → Nat → List prio_shared_image
  | [], _, _ => []
  | e :: t, img, p =>
      if e.second = img then ⟨p, e.second⟩ :: t
      else e :: updateFirstOcc t img p

/-- `scheduled_images_.erase(it)` at the first entry whose `second` is `img`:
order-preserving removal of the first occurrence. -/
def eraseFirstBySecond : List prio_shared_image → ImageId → List prio_shared_image
  | [], _ => []
  | e :: t, img => if e.second = img then t else e :: eraseFirstBySecond t img

/-- Removal of `image.get()` from `unscheduled_images_` in `schedule_image`:
`std::swap(*jt, unscheduled_images_.back()); unscheduled_images_.pop_back();`
where `jt` is the first occurrence — the last element is moved into the hole
and the final slot is dropped.  No-op when the id is absent. -/
def swapRemove : List ImageId → ImageId → List ImageId
  | [], _ => []
  | x :: t, img =>
      if x = img then
        match t.getLast? with
        | none => []
        | some y => y :: t.dropLast
      else x :: swapRemove t img

/-- `image_source::schedule_image(image, priority)`:
* find the queue entry for `image`;
* absent → `emplace_back(priority, image)`;
* present with a different priority → update it in place;
* present with the same priority → early `return` (nothing touched);
* then (in the first two cases) re-sort the queue descending by priority and
  remove `image` from the unscheduled set via swap-with-back.
(The condition-variable wakeup of the worker carries no state here.) -/
def schedule_image (s : SchedState) (img : ImageId) (priority : Nat) : SchedState :=
  match s.scheduled_images.find? (fun e => e.second == img) with
  | none =>
      { scheduled_images :=
          sortScheduled (s.scheduled_images ++ [⟨priority, img⟩]),
        unscheduled_images := swapRemove s.unscheduled_images img }
  | some e =>
      if e.first ≠ priority then
        { scheduled_images :=
            sortScheduled (updateFirstOcc s.scheduled_images img priority),
          unscheduled_images := swapRemove s.unscheduled_images img }
      else s

/-- `image_source::unschedule_image(image)`:
* if the queue has an entry for `image`, erase it;
* otherwise, if `image.get()` is not yet in the unscheduled set,
  `emplace_back` it there. -/
def unschedule_image (s : SchedState) (img : ImageId) : SchedState :=
  if (s.scheduled_images.find? (fun e => e.second == img)).isSome then
    { scheduled_images := eraseFirstBySecond s.scheduled_images img,
      unscheduled_images := s.unscheduled_images }
  else if img ∈ s.unscheduled_images then s
  else
    { scheduled_images := s.scheduled_images,
      unscheduled_images := s.unscheduled_images ++ [img] }

/-- `image_source::next_scheduled_image()`: empty queue → empty pointer and
no change; otherwise move out `scheduled_images_.back().second` and
`pop_back()`.  Note the queue is sorted *descending*, so the back holds the
entry with the numerically smallest priority. -/
def next_scheduled_image (s : SchedState) : Option ImageId × SchedState :=
  match s.scheduled_images.getLast? with
  | none => (none, s)
  | some e =>
      (some e.second,
       { scheduled_images := s.scheduled_images.dropLast,
         unscheduled_images := s.unscheduled_images })

/-!
## Image state machine and the worker loop

The `image` class itself (its `load()`, `clear()` and `operator bool`) is
declared elsewhere; only its callers are in the sources at hand.
-/

/-- Modelled from the spec: the Image state machine of §3/§4.1 —
`unloaded`, `loaded{payload}`, `failed{error}` (the transient `loading`
state is not observable in the sequential model, where the single worker is
the only mutator). -/
inductive image_state where
  | unloaded
  | loaded
  | failed
deriving DecidableEq

/-- Modelled from the spec: `image::operator bool` as used by the worker's
`if (!(*img))` guard — true once a load has run (successfully or not),
false while the image is `unloaded`. -/
def image_state.toBool : image_state → Bool
  | .unloaded => false
  | .loaded => true
  | .failed => true

/-- Modelled from the spec: `image::load()` — synchronous decode; on success
the state becomes `loaded`, on failure `failed`.  The decode outcome is the
parameter `ok`. -/
def image_state.load (ok : Bool) : image_state :=
  if ok then .loaded else .failed

/-- Pointwise update of the image-state assignment (the effect of mutating
one `image` object). -/
def setImg (f : ImageId → image_state) (i : ImageId) (st : image_state) :
    ImageId → image_state :=
  fun j => if j = i then st else f j

/-- State visible to the worker: the scheduler containers plus the state of
every image object. -/
structure WorkerState where
  sched : SchedState
  imgs : ImageId → image_state

/-- The block the worker runs under `scheduled_images_lock_` after
`img->load()` has returned (source lines 178–186): if `img.get()` is found
in `unscheduled_images_`, call `img->clear()`; then
`unscheduled_images_.clear()` unconditionally. -/
def finish_load (w : WorkerState) (img : ImageId) : WorkerState :=
  { sched :=
      { scheduled_images := w.sched.scheduled_images,
        unscheduled_images := [] },
    imgs :=
      if img ∈ w.sched.unscheduled_images then
        setImg w.imgs img .unloaded
      else w.imgs }

/-- The body of `work_loop` for one dequeued image `img` (source lines
172–187): if `!(*img)`, call `img->load()` and then run the locked
`finish_load` block.  `ok` is the decode outcome of `img->load()`. -/
def process_image (w : WorkerState) (img : ImageId) (ok : Bool) : WorkerState :=
  if (w.imgs img).toBool then w
  else
    finish_load
      { sched := w.sched, imgs := setImg w.imgs img (image_state.load ok) } img

/-- Control locations of `work_loop`:
* `inner` — top of the inner `while (!stoken.stop_requested())` loop;
* `stop_check` — the `if (stoken.stop_requested()) break;` after the inner
  loop;
* `wait` — blocked on `worker_wakeup_.wait(notify_lock)`;
* `exited` — the loop has returned. -/
inductive phase where
  | inner
  | stop_check
  | wait
  | exited
deriving DecidableEq

/-- Whether the worker loop is still live (has not returned). -/
def phase.running : phase → Bool
  | .exited => false
  | _ => true

/-- One small step of `work_loop` (source lines 169–200).  `stop` is the
current value of `stoken.stop_requested()`; `oks img` is the decode outcome
`img->load()` would produce.  From `inner`: a requested stop fails the inner
loop condition; an empty queue hits the `break`; otherwise the dequeued
image is processed and the inner loop repeats.  From `stop_check`: stop →
the loop `break`s (exits); otherwise the worker blocks on the wakeup
condition variable.  From `wait`: a wakeup re-enters the outer loop. -/
def work_step (stop : Bool) (oks : ImageId → Bool) :
    phase × WorkerState → phase × WorkerState
  | (.inner, w) =>
      if stop then (.stop_check, w)
      else
        match next_scheduled_image w.sched with
        | (none, _) => (.stop_check, w)
        | (some img, s1) =>
            (.inner, process_image ⟨s1, w.imgs⟩ img (oks img))
  | (.stop_check, w) => if stop then (.exited, w) else (.wait, w)
  | (.wait, w) => (.inner, w)
  | (.exited, w) => (.exited, w)

/-!
## Filesystem events (`image_source::file_event`)

The image collection (`image_cache`) is implemented elsewhere; the handler's
interactions with it are recorded as a call trace, and the path of
`cache_.current()` is an input.
-/

/-- File paths (identity only matters). -/
abbrev Path := String

/-- `fs_watcher::action`. -/
inductive fs_action where
  | created
  | modified
  | removed
deriving DecidableEq

/-- `image_change` as used by `image_source` (`backup_` / `change_`). -/
inductive image_change where
  | next
  | previous
  | reload
  | replace_deleted
deriving DecidableEq

/-- Calls `file_event` makes on the collection (`cache_`). -/
inductive cache_call where
  | remove (p : Path)
  | invalidate_current
  | add (p : Path)
deriving DecidableEq

/-- The part of `image_source` state that `file_event` reads and writes:
the path of `cache_.current()` (none when there is no current image), and
the pending-navigation transaction `backup_` / `change_`. -/
structure SourceView where
  current : Option Path
  backup : Option Path
  change : Option image_change
deriving DecidableEq

/-- The anonymous helper `is_current(path, image)`:
`image && image->path() == path`. -/
def is_current (path : Path) (img : Option Path) : Bool :=
  match img with
  | some c => c == path
  | none => false

/-- `image_source::file_event(path, action)` (source lines 324–355): on
`removed`, record the replace-deleted transaction when the path is current,
then `cache_.remove(path)`; otherwise, when the path is current, record a
reload transaction and `cache_.invalidate_current()`; otherwise
`cache_.add(path)`.  Returns the new transaction state and the trace of
collection calls. -/
def file_event (s : SourceView) (path : Path) (action : fs_action) :
    SourceView × List cache_call :=
  let is_cur := is_current path s.current
  if action = .removed then
    (if is_cur then
       { current := s.current, backup := s.current,
         change := some .replace_deleted }
     else s,
     [.remove path])
  else if is_cur then
    ({ current := s.current, backup := s.current, change := some .reload },
     [.invalidate_current])
  else
    (s, [.add path])

/-!
## Cache population and re-watching
-/

/-- Calls made by `populate_cache` / `reload_file_list` on the collection,
the watcher and the transaction record.  `files` stands for the value the
local `auto files = list_files(startup_files_);` computed (the filesystem
listing is external). -/
inductive source_call where
  | record_reload
  | cache_invalidate_all
  | cache_set (files : List Path)
  | unwatch
  | watch (files : List Path)
deriving DecidableEq

/-- `image_source::populate_cache` (source lines 273–284): `cache_.set(files)`
with the freshly listed files, then — only if `global_config().watch_fs` —
`filesystem_watcher_.unwatch()` followed by
`filesystem_watcher_.watch(files)` with the same list. -/
def populate_cache (watch_fs : Bool) (files : List Path) : List source_call :=
  [.cache_set files] ++ (if watch_fs then [.unwatch, .watch files] else [])

/-- `image_source::reload_file_list` (source lines 290–298): record a reload
transaction, `cache_.invalidate_all()`, then `populate_cache`. -/
def reload_file_list (watch_fs : Bool) (files : List Path) : List source_call :=
  [.record_reload, .cache_invalidate_all] ++ populate_cache watch_fs files

/-- The watcher-facing calls of a trace. -/
def watcher_calls (trace : List source_call) : List source_call :=
  trace.filter fun c =>
    match c with
    | .unwatch => true
    | .watch _ => true
    | _ => false

/-!
## Scheduler histories (for the reachable-state invariants)
-/

/-- The scheduler operations callable concurrently on an `image_source`. -/
inductive SchedOp where
  | sched (img : ImageId) (priority : Nat)
  | unsched (img : ImageId)
  | next
deriving DecidableEq

/-- Effect of one scheduler operation. -/
def applyOp (s : SchedState) : SchedOp → SchedState
  | .sched img p => schedule_image s img p
  | .unsched img => unschedule_image s img
  | .next => (next_scheduled_image s).2

/-- The scheduler state of a fresh `image_source`: both containers empty. -/
def initSched : SchedState :=
  { scheduled_images := [], unscheduled_images := [] }

/-- State after a sequence of scheduler operations from the initial state. -/
def runOps (ops : List SchedOp) : SchedState :=
  ops.foldl applyOp initSched

/-- The state invariant of the scheduler containers: no duplicate entries in
either container, no image in both, and the queue sorted by priority
descending. -/
structure SchedInv (s : SchedState) : Prop where
  nodup_un : s.unscheduled_images.Nodup
  nodup_ids : (schedIds s.scheduled_images).Nodup
  disj : ∀ i ∈ schedIds s.scheduled_images, i ∉ s.unscheduled_images
  sorted : s.scheduled_images.Pairwise prioGe

/-- The behaviour C1 claims for `next_scheduled_image`, as a decidable
check: the popped entry (the back of the queue) carries the maximum
priority among all currently queued entries. -/
def popsMaxPriority (s : SchedState) : Bool :=
  match s.scheduled_images.getLast? with
  | none => true
  | some e => decide (∀ f ∈ s.scheduled_images, f.first ≤ e.first)

/-- The re-watch property claimed in C9, as a decidable check: the trace of
`populate_cache` makes exactly the watcher calls `unwatch()` followed by
`watch(files)`. -/
def watch_set_replaced (watch_fs : Bool) (files : List Path) : Bool :=
  decide (watcher_calls (populate_cache watch_fs files) = [.unwatch, .watch files])


/-!
## Helper lemmas about the container primitives
-/

theorem swapRemove_perm_erase (l : List ImageId) (img : ImageId) :
    swapRemove l img ~ l.erase img := by
  induction l with
  | nil => simp [swapRemove]
  | cons x t ih =>
      by_cases hx : x = img
      · subst hx
        simp only [swapRemove, if_pos rfl, List.erase_cons_head]
        cases ht : t.getLast? with
        | none =>
            have : t = [] := List.getLast?_eq_none_iff.mp ht
            simp [this]
        | some y =>
            calc y :: t.dropLast
                ~ t.dropLast ++ [y] := (List.perm_append_singleton y t.dropLast).symm
              _ = t := List.dropLast_append_getLast? y ht
      · simp only [swapRemove, if_neg hx]
        rw [List.erase_cons_tail (by simpa using hx)]
        exact ih.cons x

theorem mem_schedIds {l : List prio_shared_image} {img : ImageId} :
    img ∈ schedIds l ↔ ∃ e ∈ l, e.second = img := by
  simp [schedIds, List.mem_map]

theorem find?_second_eq_none {l : List prio_shared_image} {img : ImageId} :
    l.find? (fun e => e.second == img) = none ↔ img ∉ schedIds l := by
  simp [List.find?_eq_none, mem_schedIds]

theorem find?_second_isSome {l : List prio_shared_image} {img : ImageId} :
    (l.find? (fun e => e.second == img)).isSome = true ↔ img ∈ schedIds l := by
  simp [List.find?_isSome, mem_schedIds]

theorem schedIds_append (l₁ l₂ : List prio_shared_image) :
    schedIds (l₁ ++ l₂) = schedIds l₁ ++ schedIds l₂ :=
  List.map_append _ l₁ l₂

theorem schedIds_updateFirstOcc (l : List prio_shared_image) (img : ImageId) (p : Nat) :
    schedIds (updateFirstOcc l img p) = schedIds l := by
  induction l with
  | nil => rfl
  | cons e t ih =>
      by_cases he : e.second = img
      · simp [updateFirstOcc, he, schedIds]
      · simp [updateFirstOcc, he, schedIds] at ih ⊢
        exact ih

theorem perm_sortScheduled (l : List prio_shared_image) : sortScheduled l ~ l :=
  List.perm_insertionSort prioGe l

theorem sorted_sortScheduled (l : List prio_shared_image) :
    (sortScheduled l).Pairwise prioGe :=
  List.sorted_insertionSort prioGe l

theorem schedIds_sortScheduled_perm (l : List prio_shared_image) :
    schedIds (sortScheduled l) ~ schedIds l :=
  (perm_sortScheduled l).map _

/-- The executable embedding's sort is one conforming result of the
`std::ranges::sort` contract. -/
theorem sortScheduled_is_sort_result (l : List prio_shared_image) :
    RangesSortResult l (sortScheduled l) :=
  ⟨perm_sortScheduled l, sorted_sortScheduled l⟩

theorem eraseFirstBySecond_sublist (l : List prio_shared_image) (img : ImageId) :
    eraseFirstBySecond l img <+ l := by
  induction l with
  | nil => simp [eraseFirstBySecond]
  | cons e t ih =>
      by_cases he : e.second = img
      · simp only [eraseFirstBySecond, if_pos he]
        exact List.sublist_cons_self e t
      · simpa [eraseFirstBySecond, he] using ih.cons₂ e

/-- Filters that reject every entry of `img` pass through
`eraseFirstBySecond` unchanged... provided the erased entry is an `img`
entry, which it is whenever one exists. -/
theorem filter_eraseFirstBySecond (P : prio_shared_image → Bool) {img : ImageId}
    (hP : ∀ e, e.second = img → P e = false) (l : List prio_shared_image) :
    (eraseFirstBySecond l img).filter P = l.filter P := by
  induction l with
  | nil => rfl
  | cons e t ih =>
      by_cases he : e.second = img
      · simp [eraseFirstBySecond, he, List.filter_cons, hP e he]
      · simp [eraseFirstBySecond, he, List.filter_cons]
        rcases hPe : P e with _ | _ <;> simp [hPe, ih]

theorem filter_updateFirstOcc (P : prio_shared_image → Bool) {img : ImageId}
    (hP : ∀ e, e.second = img → P e = false) (l : List prio_shared_image) (p : Nat) :
    (updateFirstOcc l img p).filter P = l.filter P := by
  induction l with
  | nil => rfl
  | cons e t ih =>
      by_cases he : e.second = img
      · have h1 : P ⟨p, img⟩ = false := hP _ rfl
        have h2 : P e = false := hP _ he
        simp [updateFirstOcc, he, List.filter_cons, h1, h2]
      · simp only [updateFirstOcc, if_neg he, List.filter_cons]
        rcases hPe : P e with _ | _ <;> simp [hPe, ih]

theorem filter_second_eq_nil {l : List prio_shared_image} {img : ImageId} :
    l.filter (fun e => e.second == img) = [] ↔ img ∉ schedIds l := by
  simp [List.filter_eq_nil_iff, mem_schedIds]

/-- With no duplicate image in the queue, the entry `find?` returns is the
only one for its image. -/
theorem filter_second_of_find? {l : List prio_shared_image} {img : ImageId}
    {e : prio_shared_image} (hnd : (schedIds l).Nodup)
    (h : l.find? (fun x => x.second == img) = some e) :
    l.filter (fun x => x.second == img) = [e] := by
  induction l with
  | nil => simp at h
  | cons x t ih =>
      rcases List.nodup_cons.mp
          (show (x.second :: schedIds t).Nodup from hnd) with ⟨hx, ht⟩
      by_cases hxi : x.second = img
      · have hex : e = x := by
          rw [List.find?_cons_of_pos t (by simpa using hxi)] at h
          exact (Option.some.inj h).symm
        subst hex
        have : t.filter (fun y => y.second == img) = [] := by
          refine filter_second_eq_nil.mpr ?_
          rw [← hxi]
          exact hx
        simp [List.filter_cons, hxi, this]
      · rw [List.find?_cons_of_neg t (by simpa using hxi)] at h
        simp [List.filter_cons, hxi, ih ht h]

/-- With no duplicate image in the queue, erasing the entry `find?` located
leaves no entry for that image behind. -/
theorem filter_second_eraseFirst {l : List prio_shared_image} {img : ImageId}
    (hnd : (schedIds l).Nodup) :
    (eraseFirstBySecond l img).filter (fun e => e.second == img) = [] := by
  induction l with
  | nil => rfl
  | cons x t ih =>
      rcases List.nodup_cons.mp
          (show (x.second :: schedIds t).Nodup from hnd) with ⟨hx, ht⟩
      by_cases hxi : x.second = img
      · rw [eraseFirstBySecond, if_pos hxi]
        refine filter_second_eq_nil.mpr ?_
        rw [← hxi]
        exact hx
      · rw [eraseFirstBySecond, if_neg hxi]
        simp [List.filter_cons, hxi, ih ht]

theorem filter_second_updateFirstOcc {l : List prio_shared_image} {img : ImageId}
    (p : Nat) (hnd : (schedIds l).Nodup) (hmem : img ∈ schedIds l) :
    (updateFirstOcc l img p).filter (fun x => x.second == img) = [⟨p, img⟩] := by
  induction l with
  | nil => simp [schedIds] at hmem
  | cons x t ih =>
      rcases List.nodup_cons.mp
          (show (x.second :: schedIds t).Nodup from hnd) with ⟨hx, ht⟩
      by_cases hxi : x.second = img
      · have : t.filter (fun y => y.second == img) = [] := by
          refine filter_second_eq_nil.mpr ?_
          rw [← hxi]
          exact hx
        simp [updateFirstOcc, hxi, List.filter_cons, this]
      · have hmem' : img ∈ schedIds t := by
          rcases (by simpa [schedIds, eq_comm] using hmem :
              x.second = img ∨ img ∈ schedIds t) with h | h
          · exact absurd h hxi
          · exact h
        simp [updateFirstOcc, hxi, List.filter_cons, ih ht hmem']

/-!
## The reachable-state invariant of the scheduler
-/

theorem schedInv_init : SchedInv initSched :=
  ⟨List.nodup_nil, List.nodup_nil, by simp [initSched, schedIds], List.Pairwise.nil⟩

theorem schedInv_schedule (s : SchedState) (img : ImageId) (p : Nat)
    (h : SchedInv s) : SchedInv (schedule_image s img p) := by
  have hperm := swapRemove_perm_erase s.unscheduled_images img
  have hnodup_un' : (swapRemove s.unscheduled_images img).Nodup :=
    (h.nodup_un.erase img).perm hperm.symm
  have hnotmem_un' : img ∉ swapRemove s.unscheduled_images img := fun hc =>
    h.nodup_un.not_mem_erase (hperm.subset hc)
  have hmem_un' : ∀ {i : ImageId},
      i ∈ swapRemove s.unscheduled_images img → i ∈ s.unscheduled_images :=
    fun hc => List.erase_subset _ _ (hperm.subset hc)
  rcases hf : s.scheduled_images.find? (fun e => e.second == img) with _ | e
  · have himg : img ∉ schedIds s.scheduled_images := find?_second_eq_none.mp hf
    have hids : schedIds (sortScheduled (s.scheduled_images ++ [⟨p, img⟩]))
        ~ schedIds s.scheduled_images ++ [img] := by
      have h1 := schedIds_sortScheduled_perm (s.scheduled_images ++ [⟨p, img⟩])
      rw [schedIds_append] at h1
      simpa [schedIds] using h1
    simp only [schedule_image, hf]
    refine ⟨hnodup_un', ?_, ?_, sorted_sortScheduled _⟩
    · refine hids.symm.nodup ?_
      simp [List.nodup_append, h.nodup_ids, himg]
    · intro i hi
      rcases (by simpa using hids.subset hi :
          i ∈ schedIds s.scheduled_images ∨ i = img) with hi' | rfl
      · exact fun hc => h.disj i hi' (hmem_un' hc)
      · exact hnotmem_un'
  · by_cases hne : e.first = p
    · simp only [schedule_image, hf, hne, ne_eq, not_true_eq_false, if_false]
      exact h
    · have hup : schedIds (sortScheduled (updateFirstOcc s.scheduled_images img p))
          ~ schedIds s.scheduled_images := by
        simpa [schedIds_updateFirstOcc] using
          schedIds_sortScheduled_perm (updateFirstOcc s.scheduled_images img p)
      simp only [schedule_image, hf, ne_eq, hne, not_false_eq_true, if_true]
      refine ⟨hnodup_un', hup.symm.nodup h.nodup_ids, ?_, sorted_sortScheduled _⟩
      intro i hi
      exact fun hc => h.disj i (hup.subset hi) (hmem_un' hc)

theorem schedInv_unschedule (s : SchedState) (img : ImageId)
    (h : SchedInv s) : SchedInv (unschedule_image s img) := by
  rcases hf : s.scheduled_images.find? (fun e => e.second == img) with _ | e
  · have himg : img ∉ schedIds s.scheduled_images := find?_second_eq_none.mp hf
    by_cases hun : img ∈ s.unscheduled_images
    · simpa [unschedule_image, hf, hun] using h
    · simp only [unschedule_image, hf, Option.isSome_none, Bool.false_eq_true,
        if_false, if_neg hun]
      refine ⟨?_, h.nodup_ids, ?_, h.sorted⟩
      · simpa [List.nodup_append, hun] using h.nodup_un
      · intro i hi
        simp only [List.mem_append, List.mem_singleton]
        rintro (hc | rfl)
        · exact h.disj i hi hc
        · exact himg hi
  · have hsub : eraseFirstBySecond s.scheduled_images img <+ s.scheduled_images :=
      eraseFirstBySecond_sublist _ _
    simp only [unschedule_image, hf, Option.isSome_some, if_pos rfl]
    exact ⟨h.nodup_un, (hsub.map _).nodup h.nodup_ids,
      fun i hi => h.disj i ((hsub.map _).subset hi),
      List.Pairwise.sublist hsub h.sorted⟩

theorem schedInv_next (s : SchedState) (h : SchedInv s) :
    SchedInv (next_scheduled_image s).2 := by
  rcases hl : s.scheduled_images.getLast? with _ | e
  · simpa [next_scheduled_image, hl] using h
  · have hsub : s.scheduled_images.dropLast <+ s.scheduled_images :=
      List.dropLast_sublist _
    simp only [next_scheduled_image, hl]
    exact ⟨h.nodup_un, (hsub.map _).nodup h.nodup_ids,
      fun i hi => h.disj i ((hsub.map _).subset hi),
      List.Pairwise.sublist hsub h.sorted⟩

theorem schedInv_applyOp (s : SchedState) (op : SchedOp) (h : SchedInv s) :
    SchedInv (applyOp s op) := by
  cases op with
  | sched img p => exact schedInv_schedule s img p h
  | unsched img => exact schedInv_unschedule s img h
  | next => exact schedInv_next s h

theorem schedInv_foldl (ops : List SchedOp) :
    ∀ s, SchedInv s → SchedInv (ops.foldl applyOp s) := by
  induction ops with
  | nil => exact fun s h => h
  | cons op t ih => exact fun s h => ih _ (schedInv_applyOp s op h)

/-- Every state reachable by scheduler operations satisfies the invariant. -/
theorem schedInv_runOps (ops : List SchedOp) : SchedInv (runOps ops) :=
  schedInv_foldl ops initSched schedInv_init

/-!
## The claims
-/

/-- Claim C3: in every state reachable by any sequence of `schedule_image`,
`unschedule_image` and `next_scheduled_image` calls (from the empty initial
scheduler state), no image is present in both the pending-load queue
(`scheduled_images_`) and the unscheduled set (`unscheduled_images_`). -/
theorem C3_no_image_in_both (ops : List SchedOp) (img : ImageId)
    (h : img ∈ schedIds (runOps ops).scheduled_images) :
    img ∉ (runOps ops).unscheduled_images :=
  (schedInv_runOps ops).disj img h

theorem C3_no_image_in_both_witness :
    (1 ∈ schedIds (runOps [.sched 1 5]).scheduled_images)
    ∧ 1 ∉ (runOps [.sched 1 5]).unscheduled_images :=
  ⟨by decide, C3_no_image_in_both [.sched 1 5] 1 (by decide)⟩

/-- Claim C1, counterexample: schedule image 1 at priority 5, then image 2
at priority 0.  The queue, sorted descending, is `[⟨5,1⟩, ⟨0,2⟩]`, and
`next_scheduled_image` pops the *back* — image 2 with priority 0, the
minimum, not the maximum (5). -/
theorem C1_counterexample :
    popsMaxPriority (runOps [.sched 1 5, .sched 2 0]) = false
    ∧ (runOps [.sched 1 5, .sched 2 0]).scheduled_images = [⟨5, 1⟩, ⟨0, 2⟩]
    ∧ (next_scheduled_image (runOps [.sched 1 5, .sched 2 0])).1 = some 2 := by
  decide

/-- Claim C1, amended: for every scheduler state whose pending queue is
sorted by priority descending (true of all reachable states, by
`SchedInv`), `next_scheduled_image` removes and returns the back entry,
whose priority is the numeric *minimum* over all currently queued entries
(smaller priority values are served first); when the queue is empty it
returns the empty pointer and leaves the state unchanged. -/
theorem C1_next_pops_minimum (s : SchedState)
    (hs : s.scheduled_images.Pairwise prioGe) :
    (s.scheduled_images = [] → next_scheduled_image s = (none, s))
    ∧ ∀ e, s.scheduled_images.getLast? = some e →
        (next_scheduled_image s).1 = some e.second
        ∧ (next_scheduled_image s).2.scheduled_images = s.scheduled_images.dropLast
        ∧ (next_scheduled_image s).2.unscheduled_images = s.unscheduled_images
        ∧ ∀ f ∈ s.scheduled_images, e.first ≤ f.first := by
  constructor
  · intro hnil
    simp [next_scheduled_image, hnil]
  · intro e he
    refine ⟨by simp [next_scheduled_image, he], by simp [next_scheduled_image, he],
      by simp [next_scheduled_image, he], ?_⟩
    intro f hf
    have hl : s.scheduled_images.dropLast ++ [e] = s.scheduled_images :=
      List.dropLast_append_getLast? e he
    rw [← hl] at hs hf
    rcases List.mem_append.mp hf with h1 | h2
    · exact (List.pairwise_append.mp hs).2.2 f h1 e (List.mem_singleton_self e)
    · rw [List.mem_singleton.mp h2]

theorem C1_next_pops_minimum_witness :
    (([⟨5, 1⟩, ⟨0, 2⟩] : List prio_shared_image).Pairwise prioGe)
    ∧ (next_scheduled_image ⟨[⟨5, 1⟩, ⟨0, 2⟩], []⟩).1 = some 2
    ∧ (∀ f ∈ ([⟨5, 1⟩, ⟨0, 2⟩] : List prio_shared_image), (0 : Nat) ≤ f.first) := by
  refine ⟨by decide, ?_, ?_⟩
  · exact ((C1_next_pops_minimum ⟨[⟨5, 1⟩, ⟨0, 2⟩], []⟩ (by decide)).2 ⟨0, 2⟩ rfl).1
  · exact ((C1_next_pops_minimum ⟨[⟨5, 1⟩, ⟨0, 2⟩], []⟩ (by decide)).2 ⟨0, 2⟩ rfl).2.2.2

/-- Claim C7: `unschedule_image(image)` removes the image's pending entry
from the load queue if one exists — leaving the unscheduled set untouched —
and otherwise adds the image to the unscheduled set, without creating a
duplicate when it is already there. -/
theorem C7_unschedule_cases (s : SchedState) (img : ImageId)
    (hn : (schedIds s.scheduled_images).Nodup) :
    (img ∈ schedIds s.scheduled_images →
        ((unschedule_image s img).scheduled_images.filter
            (fun e => e.second == img) = []
         ∧ (unschedule_image s img).scheduled_images.filter
              (fun e => !(e.second == img))
            = s.scheduled_images.filter (fun e => !(e.second == img))
         ∧ (unschedule_image s img).unscheduled_images = s.unscheduled_images))
    ∧ (img ∉ schedIds s.scheduled_images → img ∈ s.unscheduled_images →
        unschedule_image s img = s)
    ∧ (img ∉ schedIds s.scheduled_images → img ∉ s.unscheduled_images →
        ((unschedule_image s img).scheduled_images = s.scheduled_images
         ∧ (unschedule_image s img).unscheduled_images
            = s.unscheduled_images ++ [img])) := by
  refine ⟨?_, ?_, ?_⟩
  · intro hmem
    have hsome : (s.scheduled_images.find? (fun e => e.second == img)).isSome = true :=
      find?_second_isSome.mpr hmem
    simp only [unschedule_image, hsome, if_true]
    exact ⟨filter_second_eraseFirst hn,
      filter_eraseFirstBySecond _ (fun e he => by simp [he]) _, by trivial⟩
  · intro hmem hun
    have hnone := find?_second_eq_none.mpr hmem
    simp [unschedule_image, hnone, hun]
  · intro hmem hun
    have hnone := find?_second_eq_none.mpr hmem
    simp [unschedule_image, hnone, hun]

theorem C7_unschedule_cases_witness :
    ((schedIds ([⟨5, 1⟩] : List prio_shared_image)).Nodup)
    ∧ (unschedule_image ⟨[⟨5, 1⟩], [2]⟩ 1).scheduled_images.filter
        (fun e => e.second == 1) = []
    ∧ (unschedule_image ⟨[⟨5, 1⟩], [2]⟩ 1).unscheduled_images = [2]
    ∧ unschedule_image ⟨[⟨5, 1⟩], [2]⟩ 2 = ⟨[⟨5, 1⟩], [2]⟩
    ∧ (unschedule_image ⟨[⟨5, 1⟩], [2]⟩ 3).unscheduled_images = [2, 3] := by
  have h1 := (C7_unschedule_cases ⟨[⟨5, 1⟩], [2]⟩ 1 (by decide)).1 (by decide)
  have h2 := (C7_unschedule_cases ⟨[⟨5, 1⟩], [2]⟩ 2 (by decide)).2.1
    (by decide) (by decide)
  have h3 := (C7_unschedule_cases ⟨[⟨5, 1⟩], [2]⟩ 3 (by decide)).2.2
    (by decide) (by decide)
  exact ⟨by decide, h1.1, h1.2.2, h2, h3.2⟩

/-- Claim C6: `schedule_image(image, p)` inserts a pending entry when the
image is not queued and re-prioritizes the existing entry when it is queued
at a different priority — in both cases the queue afterwards holds exactly
one entry `⟨p, image⟩` for the image, the other entries are preserved, and
the image is removed from the unscheduled set if present; when the image is
already queued at exactly `p` the call returns early and changes nothing. -/
theorem C6_schedule_cases (s : SchedState) (img : ImageId) (p : Nat)
    (hn : (schedIds s.scheduled_images).Nodup) :
    ((s.scheduled_images.find? (fun e => e.second == img) = none
        ∨ ∃ e, s.scheduled_images.find? (fun e => e.second == img) = some e
            ∧ e.first ≠ p) →
        ((schedule_image s img p).scheduled_images.filter
            (fun e => e.second == img) = [⟨p, img⟩]
         ∧ ((schedule_image s img p).scheduled_images.filter
              (fun e => !(e.second == img))
             ~ s.scheduled_images.filter (fun e => !(e.second == img)))
         ∧ ((schedule_image s img p).unscheduled_images
             ~ s.unscheduled_images.erase img)))
    ∧ (∀ e, s.scheduled_images.find? (fun e => e.second == img) = some e →
        e.first = p → schedule_image s img p = s) := by
  constructor
  · rintro (hf | ⟨e, hf, hne⟩)
    · have hnotmem : img ∉ schedIds s.scheduled_images := find?_second_eq_none.mp hf
      simp only [schedule_image, hf]
      refine ⟨?_, ?_, swapRemove_perm_erase _ _⟩
      · have hp := (perm_sortScheduled
          (s.scheduled_images ++ [⟨p, img⟩])).filter (fun e => e.second == img)
        rw [List.filter_append, filter_second_eq_nil.mpr hnotmem] at hp
        simpa using hp
      · have hp := (perm_sortScheduled
          (s.scheduled_images ++ [⟨p, img⟩])).filter (fun e => !(e.second == img))
        rw [List.filter_append] at hp
        simpa using hp
    · have hmem : img ∈ schedIds s.scheduled_images :=
        find?_second_isSome.mp (by rw [hf]; rfl)
      simp only [schedule_image, hf, ne_eq, hne, not_false_eq_true, if_true]
      refine ⟨?_, ?_, swapRemove_perm_erase _ _⟩
      · have hp := (perm_sortScheduled
          (updateFirstOcc s.scheduled_images img p)).filter (fun e => e.second == img)
        rw [filter_second_updateFirstOcc p hn hmem] at hp
        exact List.perm_singleton.mp hp
      · have hp := (perm_sortScheduled
          (updateFirstOcc s.scheduled_images img p)).filter (fun e => !(e.second == img))
        rw [filter_updateFirstOcc _ (fun e he => by simp [he]) _ p] at hp
        exact hp
  · intro e hf hfp
    simp [schedule_image, hf, hfp]

theorem C6_schedule_cases_witness :
    ((schedIds ([⟨5, 1⟩] : List prio_shared_image)).Nodup)
    ∧ (schedule_image ⟨[⟨5, 1⟩], [2]⟩ 2 3).scheduled_images.filter
        (fun e => e.second == 2) = [⟨3, 2⟩]
    ∧ ((schedule_image ⟨[⟨5, 1⟩], [2]⟩ 2 3).unscheduled_images
        ~ ([2] : List ImageId).erase 2)
    ∧ schedule_image ⟨[⟨5, 1⟩], [2]⟩ 1 5 = ⟨[⟨5, 1⟩], [2]⟩ := by
  have h1 := (C6_schedule_cases ⟨[⟨5, 1⟩], [2]⟩ 2 3 (by decide)).1
    (Or.inl (by decide))
  have h2 := (C6_schedule_cases ⟨[⟨5, 1⟩], [2]⟩ 1 5 (by decide)).2
    ⟨5, 1⟩ (by decide) rfl
  exact ⟨by decide, h1.1, h1.2.2, h2⟩

/-- The behaviour claim C4 asserts, checked at one `schedule_image` call:
take the reachable pending queue `[⟨5,1⟩, ⟨5,2⟩]` (image 1 scheduled before
image 2 at equal priority 5) and schedule the new image 3 at priority 0.
The insert branch is taken (first conjunct), so the C++ appends and then
sorts `[⟨5,1⟩, ⟨5,2⟩, ⟨0,3⟩]` with `std::ranges::sort` — whose contract
permits the result `[⟨5,2⟩, ⟨5,1⟩, ⟨0,3⟩]` (third conjunct: a
descending-sorted permutation).  In that permitted queue the two
equal-priority entries other than the scheduled image stand in the order
2, 1 (fourth conjunct) although they arrived in the order 1, 2 (fifth
conjunct): the claimed preservation of equal-priority arrival order is not
guaranteed by the code. -/
theorem C4_counterexample :
    (([⟨5, 1⟩, ⟨5, 2⟩] : List prio_shared_image).find?
        (fun e => e.second == 3) = none)
    ∧ (runOps [.sched 1 5, .sched 2 5]).scheduled_images = [⟨5, 1⟩, ⟨5, 2⟩]
    ∧ RangesSortResult ([⟨5, 1⟩, ⟨5, 2⟩] ++ [⟨0, 3⟩]) [⟨5, 2⟩, ⟨5, 1⟩, ⟨0, 3⟩]
    ∧ ([⟨5, 2⟩, ⟨5, 1⟩, ⟨0, 3⟩] : List prio_shared_image).filter
        (fun e => e.first == 5 && !(e.second == 3)) = [⟨5, 2⟩, ⟨5, 1⟩]
    ∧ ([⟨5, 1⟩, ⟨5, 2⟩] : List prio_shared_image).filter
        (fun e => e.first == 5 && !(e.second == 3)) = [⟨5, 1⟩, ⟨5, 2⟩] := by
  decide

/-- Claim C4, amended: after every `schedule_image` call (on a queue
without duplicate images, as all reachable queues are) the pending-load
queue is sorted by priority descending, and re-prioritizing an
already-queued image repositions its existing entry rather than removing
it and appending a new one: afterwards the queue holds exactly one entry
for the image, carrying the new priority, with the other entries preserved
as a multiset.  This is proved for *every* result `std::ranges::sort` is
permitted to produce at the sort site (`RangesSortResult`), on the insert
path and on the re-prioritize path alike — the executable embedding's
queue is one such result (`sortScheduled_is_sort_result`) — and the
exact-priority no-op returns early without sorting.  The relative order of
equal-priority entries is implementation-defined and not claimed. -/
theorem C4_sorted_repositioned (s : SchedState) (img : ImageId) (p : Nat)
    (hn : (schedIds s.scheduled_images).Nodup) :
    (s.scheduled_images.Pairwise prioGe →
        (schedule_image s img p).scheduled_images.Pairwise prioGe)
    ∧ (img ∉ schedIds s.scheduled_images →
        ∀ q1, RangesSortResult (s.scheduled_images ++ [⟨p, img⟩]) q1 →
          (q1.Pairwise prioGe
           ∧ q1.filter (fun e => e.second == img) = [⟨p, img⟩]
           ∧ (q1.filter (fun e => !(e.second == img))
               ~ s.scheduled_images.filter (fun e => !(e.second == img)))))
    ∧ (∀ e, s.scheduled_images.find? (fun x => x.second == img) = some e →
        e.first ≠ p →
        ∀ q1, RangesSortResult (updateFirstOcc s.scheduled_images img p) q1 →
          (q1.Pairwise prioGe
           ∧ q1.filter (fun e => e.second == img) = [⟨p, img⟩]
           ∧ (q1.filter (fun e => !(e.second == img))
               ~ s.scheduled_images.filter (fun e => !(e.second == img)))))
    ∧ (∀ e, s.scheduled_images.find? (fun x => x.second == img) = some e →
        e.first = p → schedule_image s img p = s) := by
  refine ⟨?_, ?_, ?_, ?_⟩
  · intro hs
    rcases hf : s.scheduled_images.find? (fun e => e.second == img) with _ | e
    · simp only [schedule_image, hf]
      exact sorted_sortScheduled _
    · by_cases hep : e.first = p
      · simp only [schedule_image, hf, hep, ne_eq, not_true_eq_false, if_false]
        exact hs
      · simp only [schedule_image, hf, ne_eq, hep, not_false_eq_true, if_true]
        exact sorted_sortScheduled _
  · rintro hni q1 ⟨hperm, hsorted⟩
    refine ⟨hsorted, ?_, ?_⟩
    · have hp := hperm.filter (fun e => e.second == img)
      rw [List.filter_append, filter_second_eq_nil.mpr hni] at hp
      exact List.perm_singleton.mp (by simpa using hp)
    · have hp := hperm.filter (fun e => !(e.second == img))
      rw [List.filter_append] at hp
      simpa using hp
  · rintro e hf hne q1 ⟨hperm, hsorted⟩
    have hmem : img ∈ schedIds s.scheduled_images :=
      find?_second_isSome.mp (by rw [hf]; rfl)
    refine ⟨hsorted, ?_, ?_⟩
    · have hp := hperm.filter (fun e => e.second == img)
      rw [filter_second_updateFirstOcc p hn hmem] at hp
      exact List.perm_singleton.mp hp
    · have hp := hperm.filter (fun e => !(e.second == img))
      rw [filter_updateFirstOcc _ (fun e he => by simp [he]) _ p] at hp
      exact hp
  · intro e hf hfp
    simp [schedule_image, hf, hfp]

theorem C4_sorted_repositioned_witness :
    ((schedIds ([⟨5, 1⟩] : List prio_shared_image)).Nodup)
    ∧ (2 ∉ schedIds ([⟨5, 1⟩] : List prio_shared_image))
    ∧ RangesSortResult ([⟨5, 1⟩] ++ [⟨5, 2⟩]) [⟨5, 2⟩, ⟨5, 1⟩]
    ∧ (schedule_image ⟨[⟨5, 1⟩], []⟩ 2 5).scheduled_images.Pairwise prioGe
    ∧ ([⟨5, 2⟩, ⟨5, 1⟩] : List prio_shared_image).Pairwise prioGe
    ∧ ([⟨5, 2⟩, ⟨5, 1⟩] : List prio_shared_image).filter
        (fun e => e.second == 2) = [⟨5, 2⟩]
    ∧ (([⟨5, 2⟩, ⟨5, 1⟩] : List prio_shared_image).filter
          (fun e => !(e.second == 2))
        ~ ([⟨5, 1⟩] : List prio_shared_image).filter (fun e => !(e.second == 2)))
    ∧ schedule_image ⟨[⟨5, 1⟩], []⟩ 1 5 = ⟨[⟨5, 1⟩], []⟩ := by
  have h := C4_sorted_repositioned ⟨[⟨5, 1⟩], []⟩ 2 5 (by decide)
  have hq := h.2.1 (by decide) [⟨5, 2⟩, ⟨5, 1⟩] ⟨by decide, by decide⟩
  have hnoop := (C4_sorted_repositioned ⟨[⟨5, 1⟩], []⟩ 1 5 (by decide)).2.2.2
    ⟨5, 1⟩ (by decide) rfl
  exact ⟨by decide, by decide, ⟨by decide, by decide⟩, h.1 (by decide),
    hq.1, hq.2.1, hq.2.2, hnoop⟩

/-- Claim C2: if `unschedule_image(img)` runs while `img`'s load is already
in flight on the worker — `img` was popped, so it has no pending queue
entry — then the call marks the image in the unscheduled set, and when
`load()` returns, the worker's locked block (`finish_load`) finds the mark
and calls `clear()`: the image's state afterwards is `unloaded`, whatever
the decode outcome `ok` was; it is never left `loaded`. -/
theorem C2_inflight_unschedule_discards (w : WorkerState) (img : ImageId)
    (ok : Bool) (hflight : img ∉ schedIds w.sched.scheduled_images) :
    (finish_load
        { sched := unschedule_image w.sched img,
          imgs := setImg w.imgs img (image_state.load ok) } img).imgs img
      = .unloaded := by
  have hnone := find?_second_eq_none.mpr hflight
  have hmem : img ∈ (unschedule_image w.sched img).unscheduled_images := by
    by_cases hun : img ∈ w.sched.unscheduled_images
    · simp [unschedule_image, hnone, hun]
    · simp [unschedule_image, hnone, hun]
  simp [finish_load, hmem, setImg]

theorem C2_inflight_unschedule_discards_witness :
    (1 ∉ schedIds (SchedState.mk [] []).scheduled_images)
    ∧ (finish_load
        { sched := unschedule_image ⟨[], []⟩ 1,
          imgs := setImg (fun _ => .unloaded) 1 (image_state.load true) } 1).imgs 1
      = .unloaded :=
  ⟨by decide,
   C2_inflight_unschedule_discards ⟨⟨[], []⟩, fun _ => .unloaded⟩ 1 true (by decide)⟩

/-- Claim C10: after the worker processes any dequeued not-yet-loaded
image, the whole unscheduled set is empty — it is cleared wholesale, not
just purged of the image that was loaded — and no other image's state is
touched: a drop-mark any other image gained while the load was in flight is
discarded without `clear()` being called on it. -/
theorem C10_unscheduled_cleared_wholesale (w : WorkerState) (img : ImageId)
    (ok : Bool) (h : w.imgs img = .unloaded) :
    ((process_image w img ok).sched.unscheduled_images = [])
    ∧ ((process_image w img ok).sched.scheduled_images = w.sched.scheduled_images)
    ∧ (∀ j, j ≠ img → (process_image w img ok).imgs j = w.imgs j) := by
  have hb : (w.imgs img).toBool = false := by rw [h]; rfl
  refine ⟨by simp [process_image, hb, finish_load],
    by simp [process_image, hb, finish_load], ?_⟩
  intro j hj
  by_cases hun : img ∈ w.sched.unscheduled_images <;>
    simp [process_image, hb, finish_load, hun, setImg, hj]

theorem C10_unscheduled_cleared_wholesale_witness :
    ((fun j => if j = 2 then image_state.loaded else .unloaded) 1 = .unloaded)
    ∧ (process_image ⟨⟨[], [2]⟩, fun j => if j = 2 then .loaded else .unloaded⟩
        1 true).sched.unscheduled_images = []
    ∧ (process_image ⟨⟨[], [2]⟩, fun j => if j = 2 then .loaded else .unloaded⟩
        1 true).imgs 2 = .loaded := by
  have h := C10_unscheduled_cleared_wholesale
    ⟨⟨[], [2]⟩, fun j => if j = 2 then .loaded else .unloaded⟩ 1 true rfl
  refine ⟨rfl, h.1, ?_⟩
  rw [h.2.2 2 (by decide)]
  rfl

/-- While stop has not been requested, no step of `work_loop` leaves the
loop. -/
theorem work_step_false_running (oks : ImageId → Bool) (c : phase × WorkerState)
    (h : c.1.running = true) : ((work_step false oks c).1).running = true := by
  obtain ⟨ph, w⟩ := c
  cases ph with
  | inner =>
      simp only [work_step, Bool.false_eq_true, if_false]
      rcases hnext : next_scheduled_image w.sched with ⟨img?, s1⟩
      cases img? <;> simp [hnext, phase.running]
  | stop_check => simp [work_step, phase.running]
  | wait => simp [work_step, phase.running]
  | exited => simp [phase.running] at h

/-- Claim C8: `work_loop` exits only after the stop token has stop
requested.  With `stop = false` no number of steps from the loop head
reaches the `exited` location — in particular an empty pending queue routes
the worker to the stop check and from there to the condition-variable wait,
not out of the loop, and neither an already-loaded dequeued image nor a
failing `load()` (the decode outcomes `oks` are arbitrary) terminates it;
the only exit edge is taken from the stop check once stop is requested. -/
theorem C8_exit_only_on_stop (oks : ImageId → Bool) (w : WorkerState) (n : Nat) :
    (((work_step false oks)^[n] (.inner, w)).1.running = true)
    ∧ (∀ un imgs, work_step false oks (.inner, ⟨⟨[], un⟩, imgs⟩)
        = (.stop_check, ⟨⟨[], un⟩, imgs⟩))
    ∧ (∀ w1, work_step false oks (.stop_check, w1) = (.wait, w1))
    ∧ (∀ w1, work_step true oks (.stop_check, w1) = (.exited, w1)) := by
  refine ⟨?_, fun un imgs => rfl, fun w1 => rfl, fun w1 => rfl⟩
  induction n with
  | zero => rfl
  | succ k ih =>
      rw [Function.iterate_succ_apply']
      exact work_step_false_running oks _ ih

/-- Claim C5: the `file_event(path, action)` handler — for a `removed`
event on the current image's path it records the pending-navigation
transaction (`backup_` = previous current, `change_` = `replace_deleted`)
and removes the path from the collection; for a `modified` event on the
current path it records a `reload` transaction (with the previous current
as backup) and calls `invalidate_current()`; for a `modified` or `created`
event on a non-current path it calls `add(path)`. -/
theorem C5_file_event_cases (s : SourceView) (path : Path) (action : fs_action) :
    (action = .removed → is_current path s.current = true →
        file_event s path action
          = (⟨s.current, s.current, some .replace_deleted⟩, [.remove path]))
    ∧ (action = .modified → is_current path s.current = true →
        file_event s path action
          = (⟨s.current, s.current, some .reload⟩, [.invalidate_current]))
    ∧ ((action = .modified ∨ action = .created) →
        is_current path s.current = false →
        file_event s path action = (s, [.add path])) := by
  refine ⟨?_, ?_, ?_⟩
  · rintro rfl hc
    simp [file_event, hc]
  · rintro rfl hc
    simp [file_event, hc]
  · rintro (rfl | rfl) hc <;> simp [file_event, hc]

theorem C5_file_event_cases_witness :
    (file_event ⟨some "a", none, none⟩ "a" .removed
      = (⟨some "a", some "a", some .replace_deleted⟩, [.remove "a"]))
    ∧ (file_event ⟨some "a", none, none⟩ "a" .modified
      = (⟨some "a", some "a", some .reload⟩, [.invalidate_current]))
    ∧ (file_event ⟨some "a", none, none⟩ "b" .created
      = (⟨some "a", none, none⟩, [.add "b"])) :=
  ⟨(C5_file_event_cases ⟨some "a", none, none⟩ "a" .removed).1 rfl (by decide),
   (C5_file_event_cases ⟨some "a", none, none⟩ "a" .modified).2.1 rfl (by decide),
   (C5_file_event_cases ⟨some "a", none, none⟩ "b" .created).2.2
     (Or.inr rfl) (by decide)⟩

/-- Claim C9, counterexample: when the `watch_fs` configuration option is
disabled, `populate_cache` repopulates the file list but makes no watcher
call at all — the watch set is not replaced. -/
theorem C9_counterexample :
    watch_set_replaced false ["a"] = false
    ∧ populate_cache false ["a"] = [.cache_set ["a"]] := by
  decide

/-- Claim C9, amended: whenever `populate_cache` repopulates the file list
— directly at construction or via `reload_file_list` — *and the `watch_fs`
configuration option is enabled*, the filesystem watcher's watch set is
replaced, `unwatch()` followed by `watch(files)`, with exactly the newly
listed files (the very list passed to `cache_.set`); with the option
disabled the watcher is not touched. -/
theorem C9_watch_set_replaced_when_enabled (files : List Path) :
    populate_cache true files = [.cache_set files, .unwatch, .watch files]
    ∧ watcher_calls (populate_cache true files) = [.unwatch, .watch files]
    ∧ watcher_calls (reload_file_list true files) = [.unwatch, .watch files]
    ∧ watcher_calls (populate_cache false files) = [] :=
  ⟨rfl, rfl, rfl, rfl⟩

end PhoDispl
